import Mathlib

/-!
Verification development for the evidence-assembly and resumable-resolution
pipeline of the software-id-benchmark repository.

The Python sources under `src/src/application` are shallowly embedded here:
pure functions become Lean functions; external effects (HTTP requests, the
tokenizer, the JSON library, the browser engine) are passed in as explicit
function parameters; Python exceptions become `Except String`; Python `None`
and falsy values become `Option`/emptiness checks mirroring each truthiness
test in the source.
-/

namespace SIB

/-! ## Python string primitives

`pySplit` models Python `str.split()` (no separator): split on runs of
whitespace, discarding empty pieces.  `pyStrip` models `str.strip()`.
`joinSp` models `" ".join(list)`.  `pyIn needle hay` models
`needle in hay` for strings. -/

def pySplitChars : List Char → List Char → List String
  | [], cur => if cur.isEmpty then [] else [String.mk cur.reverse]
  | c :: cs, cur =>
    if c.isWhitespace then
      if cur.isEmpty then pySplitChars cs [] else String.mk cur.reverse :: pySplitChars cs []
    else pySplitChars cs (c :: cur)

def pySplit (s : String) : List String := pySplitChars s.data []

def pyStrip (s : String) : String :=
  String.mk (((s.data.dropWhile Char.isWhitespace).reverse.dropWhile Char.isWhitespace).reverse)

def joinSp : List String → String
  | [] => ""
  | [w] => w
  | w :: ws => w ++ " " ++ joinSp ws

/-- `isSubAt pat text` : does `pat` occur at the head of `text`? -/
def isSubAt : List Char → List Char → Bool
  | [], _ => true
  | _ :: _, [] => false
  | p :: ps, c :: cs => p == c && isSubAt ps cs

def containsSub (pat : List Char) : List Char → Bool
  | [] => pat.isEmpty
  | c :: cs => isSubAt pat (c :: cs) || containsSub pat cs

/-- Python `needle in hay` on strings. -/
def pyIn (needle hay : String) : Bool := containsSub needle.data hay.data

/-! ## Token Budgeter / Chunker
(`src/application/services/disambiguation.py`, `chunk_text` lines 74-94 and the
nested `chunk_entries` lines 112-132 of `build_chat_messages_with_disconnected`)

Both source loops are the same greedy accumulation over a per-item token
count; `chunk_go` is that loop (`chunks` / `current_chunk` /
`current_token_count` are the three accumulators of the Python code).
`chunk_text` instantiates it with per-word counts `enc.encode(word + " ")`
and joins each closed chunk with `" ".join`; `chunk_entries` instantiates it
with per-entry counts `enc.encode(json.dumps(entry))`.  The tokenizer
`tok`/`enc` (tiktoken) and the serializer `dumps` (json.dumps) are external
libraries, taken as parameters. -/

def chunk_go (tokf : α → Nat) (maxT : Nat) : List α → List α → Nat → List (List α) → List (List α)
  | [], cur, _, acc => if cur.isEmpty then acc else acc ++ [cur]
  | x :: xs, cur, cnt, acc =>
    if cnt + tokf x > maxT then chunk_go tokf maxT xs [x] (tokf x) (acc ++ [cur])
    else chunk_go tokf maxT xs (cur ++ [x]) (cnt + tokf x) acc

def chunk_text_words (tok : String → Nat) (maxT : Nat) (text : String) : List (List String) :=
  chunk_go (fun w => tok (w ++ " ")) maxT (pySplit text) [] 0 []

def chunk_text (tok : String → Nat) (maxT : Nat) (text : String) : List String :=
  (chunk_text_words tok maxT text).map joinSp

def chunk_entries {E : Type} (enc : String → Nat) (dumps : E → String) (maxT : Nat)
    (entries : List E) : List (List E) :=
  chunk_go (fun e => enc (dumps e)) maxT entries [] 0 []

/-- Running token total of a chunk, as tracked by the source's
`current_token_count`. -/
def chunkSum (tokf : α → Nat) (c : List α) : Nat := (c.map tokf).sum

/-! ### Chunker lemmas -/

theorem chunk_go_flatten (tokf : α → Nat) (maxT : Nat) :
    ∀ (xs cur : List α) (cnt : Nat) (acc : List (List α)),
      (chunk_go tokf maxT xs cur cnt acc).flatten = acc.flatten ++ cur ++ xs := by
  intro xs
  induction xs with
  | nil =>
    intro cur cnt acc
    simp only [chunk_go]
    by_cases h : cur.isEmpty
    · rw [if_pos h]
      rw [List.isEmpty_iff] at h
      simp [h]
    · rw [if_neg h]
      simp
  | cons x xs ih =>
    intro cur cnt acc
    simp only [chunk_go]
    by_cases h : cnt + tokf x > maxT
    · rw [if_pos h, ih]
      simp
    · rw [if_neg h, ih]
      simp

theorem chunk_go_ok (tokf : α → Nat) (maxT : Nat) :
    ∀ (xs cur : List α) (cnt : Nat) (acc : List (List α)),
      cnt = chunkSum tokf cur →
      (cnt ≤ maxT ∨ ∃ y, cur = [y] ∧ tokf y > maxT) →
      (∀ c ∈ acc, chunkSum tokf c ≤ maxT ∨ ∃ y, c = [y] ∧ tokf y > maxT) →
      ∀ c ∈ chunk_go tokf maxT xs cur cnt acc,
        chunkSum tokf c ≤ maxT ∨ ∃ y, c = [y] ∧ tokf y > maxT := by
  intro xs
  induction xs with
  | nil =>
    intro cur cnt acc hcnt hcur hacc c hc
    simp only [chunk_go] at hc
    by_cases h : cur.isEmpty
    · rw [if_pos h] at hc
      exact hacc c hc
    · rw [if_neg h] at hc
      rcases List.mem_append.mp hc with h1 | h1
      · exact hacc c h1
      · have : c = cur := by simpa using h1
        subst this
        rcases hcur with h2 | h2
        · exact Or.inl (hcnt ▸ h2)
        · exact Or.inr h2
  | cons x xs ih =>
    intro cur cnt acc hcnt hcur hacc c hc
    simp only [chunk_go] at hc
    by_cases h : cnt + tokf x > maxT
    · rw [if_pos h] at hc
      refine ih [x] (tokf x) (acc ++ [cur]) (by simp [chunkSum]) ?_ ?_ c hc
      · by_cases hx : tokf x ≤ maxT
        · exact Or.inl hx
        · exact Or.inr ⟨x, rfl, by omega⟩
      · intro d hd
        rcases List.mem_append.mp hd with h1 | h1
        · exact hacc d h1
        · have : d = cur := by simpa using h1
          subst this
          rcases hcur with h2 | h2
          · exact Or.inl (hcnt ▸ h2)
          · exact Or.inr h2
    · rw [if_neg h] at hc
      refine ih (cur ++ [x]) (cnt + tokf x) acc ?_ (Or.inl (by omega)) hacc c hc
      simp [chunkSum, hcnt]

theorem chunk_go_ne (tokf : α → Nat) (maxT : Nat) :
    ∀ (xs cur : List α) (cnt : Nat) (acc : List (List α)),
      cur ≠ [] → (∀ c ∈ acc, c ≠ []) →
      ∀ c ∈ chunk_go tokf maxT xs cur cnt acc, c ≠ [] := by
  intro xs
  induction xs with
  | nil =>
    intro cur cnt acc hcur hacc c hc
    simp only [chunk_go] at hc
    by_cases h : cur.isEmpty
    · exact absurd (List.isEmpty_iff.mp h) hcur
    · rw [if_neg h] at hc
      rcases List.mem_append.mp hc with h1 | h1
      · exact hacc c h1
      · have : c = cur := by simpa using h1
        exact this ▸ hcur
  | cons x xs ih =>
    intro cur cnt acc hcur hacc c hc
    simp only [chunk_go] at hc
    by_cases h : cnt + tokf x > maxT
    · rw [if_pos h] at hc
      refine ih [x] (tokf x) (acc ++ [cur]) (by simp) ?_ c hc
      intro d hd
      rcases List.mem_append.mp hd with h1 | h1
      · exact hacc d h1
      · have : d = cur := by simpa using h1
        exact this ▸ hcur
    · rw [if_neg h] at hc
      exact ih (cur ++ [x]) (cnt + tokf x) acc (by simp) hacc c hc

theorem joinSp_append (a b : List String) (ha : a ≠ []) (hb : b ≠ []) :
    joinSp (a ++ b) = joinSp a ++ " " ++ joinSp b := by
  induction a with
  | nil => exact absurd rfl ha
  | cons x a ih =>
    cases a with
    | nil =>
      cases b with
      | nil => exact absurd rfl hb
      | cons y bs => simp [joinSp]
    | cons z a' =>
      have : joinSp ((x :: z :: a') ++ b) = x ++ " " ++ joinSp ((z :: a') ++ b) := by
        cases b <;> simp [joinSp]
      rw [this, ih (by simp)]
      simp [joinSp, String.append_assoc]

theorem joinSp_map_flatten (cs : List (List String)) (h : ∀ c ∈ cs, c ≠ []) :
    joinSp (cs.map joinSp) = joinSp cs.flatten := by
  induction cs with
  | nil => simp
  | cons c cs ih =>
    cases cs with
    | nil => simp [joinSp]
    | cons d ds =>
      have hmap : joinSp (joinSp c :: joinSp d :: ds.map joinSp) =
          joinSp c ++ " " ++ joinSp (joinSp d :: ds.map joinSp) := by
        simp [joinSp]
      have hflat : (d :: ds).flatten ≠ [] := by
        have hd : d ≠ [] := h d (by simp)
        simp only [List.flatten_cons]
        intro hcontra
        exact hd (List.append_eq_nil.mp hcontra).1
      calc joinSp ((c :: d :: ds).map joinSp)
          = joinSp c ++ " " ++ joinSp ((d :: ds).map joinSp) := by
            simpa using hmap
        _ = joinSp c ++ " " ++ joinSp (d :: ds).flatten := by
            rw [ih (fun x hx => h x (by simp [hx]))]
        _ = joinSp (c ++ (d :: ds).flatten) := by
            rw [joinSp_append c _ (h c (by simp)) hflat]
        _ = joinSp ((c :: d :: ds).flatten) := by simp

theorem chunkOK_singleton (tokf : α → Nat) (maxT : Nat) (c : List α)
    (hok : chunkSum tokf c ≤ maxT ∨ ∃ y, c = [y] ∧ tokf y > maxT)
    (x : α) (hx : x ∈ c) (hbig : tokf x > maxT) : c = [x] := by
  rcases hok with h | ⟨y, rfl, _⟩
  · exfalso
    have hmem : tokf x ∈ c.map tokf := List.mem_map_of_mem tokf hx
    have := List.single_le_sum (l := c.map tokf) (fun a _ => Nat.zero_le a) (tokf x) hmem
    have hsum : tokf x ≤ chunkSum tokf c := this
    omega
  · have : x = y := by simpa using hx
    rw [this]

theorem chunk_text_words_ne (tok : String → Nat) (maxT : Nat) (text : String)
    (h : pySplit text ≠ [] → tok ((pySplit text).headD "" ++ " ") ≤ maxT) :
    ∀ c ∈ chunk_text_words tok maxT text, c ≠ [] := by
  unfold chunk_text_words
  cases hw : pySplit text with
  | nil => simp [chunk_go]
  | cons w ws =>
    have ht : tok (w ++ " ") ≤ maxT := by
      have := h (by rw [hw]; simp)
      rwa [hw] at this
    simp only [chunk_go, Nat.zero_add]
    rw [if_neg (by omega)]
    exact chunk_go_ne _ maxT ws [w] (tok (w ++ " ")) [] (by simp) (by simp)

/-- C6 (amended): joining the chunks returned by `chunk_text` with single
spaces reconstructs the single-space join of the input's whitespace-separated
words (not the original text verbatim, since `text.split()` collapses
whitespace runs), provided the first word's token count does not exceed
`max_tokens` (an oversized first word produces a leading empty chunk);
moreover chunk boundaries never reorder, split or drop the input words:
the concatenation of the chunks' word lists is exactly the input word list. -/
theorem chunk_text_order_preservation (tok : String → Nat) (maxT : Nat) (text : String)
    (h : pySplit text ≠ [] → tok ((pySplit text).headD "" ++ " ") ≤ maxT) :
    joinSp (chunk_text tok maxT text) = joinSp (pySplit text)
    ∧ (chunk_text_words tok maxT text).flatten = pySplit text
    ∧ chunk_text tok maxT text = (chunk_text_words tok maxT text).map joinSp := by
  have hflat : (chunk_text_words tok maxT text).flatten = pySplit text := by
    unfold chunk_text_words
    rw [chunk_go_flatten]
    simp
  refine ⟨?_, hflat, rfl⟩
  unfold chunk_text
  rw [joinSp_map_flatten _ (chunk_text_words_ne tok maxT text h), hflat]

/-- C6 witness: on a single-space-separated text the amended reconstruction
property holds concretely. -/
theorem chunk_text_order_preservation_witness :
    joinSp (chunk_text String.length 10 "a b c") = joinSp (pySplit "a b c") :=
  (chunk_text_order_preservation String.length 10 "a b c" (by decide)).1

/-- C6 counterexample: for the input text `"a  b"` (two spaces) and the
positive budget 8000, `chunk_text` returns the single chunk `"a b"`, so
joining the chunks with single spaces does not reconstruct the original
text (Python `text.split()` discards the duplicated whitespace).  The
failure is independent of the tokenizer: with both words in one chunk any
per-word count gives the same chunks. -/
theorem chunk_text_counterexample :
    joinSp (chunk_text (fun _ => 1) 8000 "a  b") ≠ "a  b" := by decide

/-- C7: for any tokenizer, serializer and positive `max_tokens`, every chunk
produced by `chunk_text` (over words) and `chunk_entries` (over serialized
records) either has running token count at most `max_tokens` or is a
singleton oversized item; a single oversized item always occupies its own
chunk; and no item is ever split or dropped (the concatenation of all chunks
is the input item sequence). -/
theorem chunk_bound {E : Type} (tok enc : String → Nat) (dumps : E → String)
    (maxT : Nat) (text : String) (entries : List E) (_hpos : 0 < maxT) :
    (∀ c ∈ chunk_text_words tok maxT text,
        chunkSum (fun w => tok (w ++ " ")) c ≤ maxT ∨ ∃ w, c = [w] ∧ tok (w ++ " ") > maxT)
    ∧ (∀ c ∈ chunk_text_words tok maxT text, ∀ w ∈ c, tok (w ++ " ") > maxT → c = [w])
    ∧ (chunk_text_words tok maxT text).flatten = pySplit text
    ∧ (∀ c ∈ chunk_entries enc dumps maxT entries,
        chunkSum (fun e => enc (dumps e)) c ≤ maxT ∨ ∃ e, c = [e] ∧ enc (dumps e) > maxT)
    ∧ (∀ c ∈ chunk_entries enc dumps maxT entries, ∀ e ∈ c, enc (dumps e) > maxT → c = [e])
    ∧ (chunk_entries enc dumps maxT entries).flatten = entries := by
  have htext : ∀ c ∈ chunk_text_words tok maxT text,
      chunkSum (fun w => tok (w ++ " ")) c ≤ maxT ∨ ∃ w, c = [w] ∧ tok (w ++ " ") > maxT :=
    chunk_go_ok _ maxT (pySplit text) [] 0 [] (by simp [chunkSum])
      (Or.inl (Nat.zero_le _)) (by simp)
  have hent : ∀ c ∈ chunk_entries enc dumps maxT entries,
      chunkSum (fun e => enc (dumps e)) c ≤ maxT ∨ ∃ e, c = [e] ∧ enc (dumps e) > maxT :=
    chunk_go_ok _ maxT entries [] 0 [] (by simp [chunkSum])
      (Or.inl (Nat.zero_le _)) (by simp)
  refine ⟨htext, ?_, ?_, hent, ?_, ?_⟩
  · intro c hc w hw hbig
    exact chunkOK_singleton _ maxT c (htext c hc) w hw hbig
  · unfold chunk_text_words
    rw [chunk_go_flatten]; simp
  · intro c hc e he hbig
    exact chunkOK_singleton _ maxT c (hent c hc) e he hbig
  · unfold chunk_entries
    rw [chunk_go_flatten]; simp

/-- C7 witness: with a length-based tokenizer and budget 5, the first chunk
of `"aa bb cc"` satisfies the bound, and chunking three serialized records
drops none of them. -/
theorem chunk_bound_witness :
    (chunkSum (fun w => String.length (w ++ " ")) ["aa"] ≤ 5
      ∨ ∃ w, (["aa"] : List String) = [w] ∧ String.length (w ++ " ") > 5)
    ∧ (chunk_entries String.length (fun (e : Nat) => toString e) 5 [1, 2, 3]).flatten
        = [1, 2, 3] := by
  have h := chunk_bound String.length String.length (fun (e : Nat) => toString e)
    5 "aa bb cc" [1, 2, 3] (by decide)
  exact ⟨h.1 ["aa"] (by decide), h.2.2.2.2.2⟩

/-! ## Prompt + Chat Message Builder
(`src/application/services/disambiguation.py`,
`build_chat_messages_with_disconnected` lines 101-172)

`MessageD` is one chat message (`{"role": ..., "content": ...}`).  The entry
type `E` is abstract; `dumps` models `json.dumps(entry, ensure_ascii=False)`
(used for token counting inside `chunk_entries`) and `dumpsChunk` models
`json.dumps(chunk, indent=2, ensure_ascii=False)` (used when rendering a
chunk into a message).  The source assembles the full message list and only
then checks the token budget, raising `ValueError` when it is exceeded; the
assembly part is `assembled_messages` and the raise is `Except.error`. -/

structure MessageD where
  role : String
  content : String
deriving DecidableEq, Repr

def MAX_TOTAL_TOKENS : Nat := 130000

def estimate_total_tokens (enc : String → Nat) (messages : List MessageD) : Nat :=
  (messages.map (fun m => enc m.content)).sum

structure ConflictData (E : Type) where
  disconnected : List E
  remaining : List E
  webpage_contents : Option (List (String × List (String × String)))

/-- The nested `chunk_dict` generator: one user message per
(URL, content-label) pair; `body` is the Python `str()` rendering of the
stored value. -/
def chunk_dict (d : List (String × List (String × String))) : List MessageD :=
  d.flatMap (fun uc => uc.2.map (fun lb =>
    ⟨"user", "Content from " ++ uc.1 ++ ":\n```\n" ++ lb.1 ++ ":\n" ++ lb.2 ++ "```"⟩))

def defaultDisconnectedPreamble : String := "**Disconnected tools** to be analyzed"

def defaultRemainingPreamble : String := "Tools known to be the **same software**"

def finalInstruction : String :=
  "All parts have been sent. Please now analyze the entries and provide the output as specified. \n\nIMPORTANT: Return ONLY a valid Python dictionary with the following keys: \x27verdict\x27, \x27explanation\x27, \x27confidence\x27, and \x27features\x27. Do NOT explanation, or extra commentary. This is a strict output constraint."

def assembled_messages {E : Type} (enc : String → Nat) (dumps : E → String)
    (dumpsChunk : List E → String) (instruction_prompt : String)
    (conflict_data : ConflictData E)
    (disconnected_preamble remaining_preamble : String)
    (max_tokens_per_chunk : Nat) : List MessageD :=
  [⟨"user", instruction_prompt⟩]
  ++ (if conflict_data.remaining.isEmpty then [] else
      (chunk_entries enc dumps max_tokens_per_chunk conflict_data.remaining).enum.map
        (fun ic => ⟨"user", remaining_preamble ++ " - part " ++ toString (ic.1 + 1)
            ++ ":\n```json\n" ++ dumpsChunk ic.2 ++ "\n```"⟩))
  ++ (if conflict_data.disconnected.isEmpty then [] else
      (chunk_entries enc dumps max_tokens_per_chunk conflict_data.disconnected).enum.map
        (fun jc => ⟨"user", disconnected_preamble ++ " - part " ++ toString (jc.1 + 1)
            ++ ":\n```json\n" ++ dumpsChunk jc.2 ++ "\n```"⟩))
  ++ (match conflict_data.webpage_contents with
      | some d => chunk_dict d
      | none => [])
  ++ [⟨"user", finalInstruction⟩]

def build_chat_messages_with_disconnected {E : Type} (enc : String → Nat)
    (dumps : E → String) (dumpsChunk : List E → String) (instruction_prompt : String)
    (conflict_data : ConflictData E)
    (disconnected_preamble remaining_preamble : String)
    (max_tokens_per_chunk : Nat) : Except String (List MessageD) :=
  let messages := assembled_messages enc dumps dumpsChunk instruction_prompt
    conflict_data disconnected_preamble remaining_preamble max_tokens_per_chunk
  let total_tokens := estimate_total_tokens enc messages
  if total_tokens > MAX_TOTAL_TOKENS then
    .error ("Prompt too long: " ++ toString total_tokens ++ " tokens. Limit is "
      ++ toString MAX_TOTAL_TOKENS ++ ".")
  else .ok messages

/-- The caller boundary: a raised `ValueError` propagates before any oracle
request, so an errored build reaches the oracle client with no call; the
second component records the oracle invocations made. -/
def send_if_built (oracle : List MessageD → String) :
    Except String (List MessageD) → Option String × List (List MessageD)
  | .error _ => (none, [])
  | .ok msgs => (some (oracle msgs), [msgs])

/-- C1: if the summed token count of all assembled message contents exceeds
`MAX_TOTAL_TOKENS` (130000) then `build_chat_messages_with_disconnected`
fails with an error surfaced to the caller and no oracle call is made with
those messages; otherwise the ordered assembled message list is returned. -/
theorem budget_enforcement {E : Type} (enc : String → Nat) (dumps : E → String)
    (dumpsChunk : List E → String) (instruction_prompt : String)
    (conflict_data : ConflictData E) (dp rp : String) (maxC : Nat)
    (oracle : List MessageD → String) :
    (estimate_total_tokens enc (assembled_messages enc dumps dumpsChunk
        instruction_prompt conflict_data dp rp maxC) > MAX_TOTAL_TOKENS →
      (∃ e, build_chat_messages_with_disconnected enc dumps dumpsChunk
          instruction_prompt conflict_data dp rp maxC = .error e)
      ∧ (send_if_built oracle (build_chat_messages_with_disconnected enc dumps
          dumpsChunk instruction_prompt conflict_data dp rp maxC)).2 = [])
    ∧ (estimate_total_tokens enc (assembled_messages enc dumps dumpsChunk
        instruction_prompt conflict_data dp rp maxC) ≤ MAX_TOTAL_TOKENS →
      build_chat_messages_with_disconnected enc dumps dumpsChunk
        instruction_prompt conflict_data dp rp maxC
        = .ok (assembled_messages enc dumps dumpsChunk instruction_prompt
            conflict_data dp rp maxC)) := by
  constructor
  · intro hover
    unfold build_chat_messages_with_disconnected
    rw [if_pos hover]
    exact ⟨⟨_, rfl⟩, rfl⟩
  · intro hunder
    unfold build_chat_messages_with_disconnected
    rw [if_neg (by omega)]

/-- C1 witness: with a constant 70000-token count per message and an empty
conflict, the two assembled messages total 140000 tokens, the build errors
and the oracle receives no call. -/
theorem budget_enforcement_witness :
    (∃ e, build_chat_messages_with_disconnected (E := Nat) (fun _ => 70000)
        toString toString "x" ⟨[], [], none⟩ defaultDisconnectedPreamble
        defaultRemainingPreamble 8000 = .error e)
    ∧ (send_if_built (fun _ => "answer")
        (build_chat_messages_with_disconnected (E := Nat) (fun _ => 70000)
          toString toString "x" ⟨[], [], none⟩ defaultDisconnectedPreamble
          defaultRemainingPreamble 8000)).2 = [] :=
  (budget_enforcement (E := Nat) (fun _ => 70000) toString toString "x"
    ⟨[], [], none⟩ defaultDisconnectedPreamble defaultRemainingPreamble 8000
    (fun _ => "answer")).1 (by decide)

/-! ## Resumable Ledger
(`src/application/services/disambiguation.py`, `load_solved_conflict_keys`
lines 470-483, and `src/application/use_cases/make_inferences.py`,
`make_inferences` lines 34-93)

The ledger file is modeled as `Option (List String)`: `none` when
`os.path.exists` is false, otherwise the list of lines.  `parseLine` models
`json.loads` on one line, returning the parsed object's keys in order
(`none` = `json.loads` raised); `next(iter(entry))` takes the first key and
raises `StopIteration` on an empty object, which the `except` swallows, so
only lines parsing to a non-empty object contribute.  The Python `set` is a
list grown by insert-if-absent. -/

def setAdd (s : List String) (x : String) : List String :=
  if x ∈ s then s else s ++ [x]

def load_solved_conflict_keys (parseLine : String → Option (List String)) :
    Option (List String) → List String
  | none => []
  | some lines =>
    lines.foldl (fun solved_keys line =>
      if pyStrip line ≠ "" then
        match parseLine line with
        | some (key :: _) => setAdd solved_keys key
        | _ => solved_keys
      else solved_keys) []

/-- One oracle-client invocation recorded during `make_inferences`: the
provider dispatch at lines 57-60 calls `query_openrouter` for provider
`"openrouter"` and `query_huggingface_new` otherwise. -/
inductive OracleCall where
  | openrouter (key : String) (messages : List MessageD)
  | huggingface (key : String) (messages : List MessageD) (provider : String)
deriving DecidableEq

def OracleCall.key : OracleCall → String
  | .openrouter k _ => k
  | .huggingface k _ _ => k

/-- The oracle invocations made by `make_inferences`: the solved-key set is
loaded from the results file, then each conflict key is skipped when already
solved and otherwise queried (file outputs are out-of-scope I/O). -/
def make_inferences_calls (parseLine : String → Option (List String))
    (ledger : Option (List String)) (provider : String)
    (messages_dict : List (String × List MessageD)) : List OracleCall :=
  let solved_conflicts_keys := load_solved_conflict_keys parseLine ledger
  messages_dict.foldl (fun log kv =>
    if kv.1 ∈ solved_conflicts_keys then log
    else log ++ [if provider = "openrouter" then OracleCall.openrouter kv.1 kv.2
                 else OracleCall.huggingface kv.1 kv.2 provider]) []

theorem mem_setAdd (s : List String) (x k : String) :
    k ∈ setAdd s x ↔ k ∈ s ∨ k = x := by
  unfold setAdd
  by_cases h : x ∈ s
  · rw [if_pos h]
    constructor
    · exact Or.inl
    · rintro (hk | rfl)
      · exact hk
      · exact h
  · rw [if_neg h]
    simp

theorem load_solved_go (parseLine : String → Option (List String)) (k : String) :
    ∀ (lines : List String) (acc : List String),
      k ∈ lines.foldl (fun solved_keys line =>
        if pyStrip line ≠ "" then
          match parseLine line with
          | some (key :: _) => setAdd solved_keys key
          | _ => solved_keys
        else solved_keys) acc
      ↔ k ∈ acc ∨ ∃ line ∈ lines, pyStrip line ≠ ""
          ∧ ∃ rest, parseLine line = some (k :: rest) := by
  intro lines
  induction lines with
  | nil => simp
  | cons l ls ih =>
    intro acc
    rw [List.foldl_cons, ih]
    constructor
    · rintro (hacc | ⟨line, hline, hns, rest, hparse⟩)
      · by_cases hs : pyStrip l ≠ ""
        · rw [if_pos hs] at hacc
          cases hp : parseLine l with
          | none => rw [hp] at hacc; exact Or.inl hacc
          | some keys =>
            cases keys with
            | nil => rw [hp] at hacc; exact Or.inl hacc
            | cons key rest' =>
              rw [hp] at hacc
              rcases (mem_setAdd _ _ _).mp hacc with h1 | rfl
              · exact Or.inl h1
              · exact Or.inr ⟨l, by simp, hs, rest', hp⟩
        · rw [if_neg hs] at hacc; exact Or.inl hacc
      · exact Or.inr ⟨line, by simp [hline], hns, rest, hparse⟩
    · rintro (hacc | ⟨line, hline, hns, rest, hparse⟩)
      · left
        by_cases hs : pyStrip l ≠ ""
        · rw [if_pos hs]
          cases hp : parseLine l with
          | none => exact hacc
          | some keys =>
            cases keys with
            | nil => exact hacc
            | cons key rest' => exact (mem_setAdd _ _ _).mpr (Or.inl hacc)
        · rw [if_neg hs]; exact hacc
      · rcases List.mem_cons.mp hline with rfl | hmem
        · left
          rw [if_pos hns, hparse]
          exact (mem_setAdd _ _ _).mpr (Or.inr rfl)
        · exact Or.inr ⟨line, hmem, hns, rest, hparse⟩

theorem make_inferences_calls_unsolved (parseLine : String → Option (List String))
    (ledger : Option (List String)) (provider : String) :
    ∀ (messages_dict : List (String × List MessageD)) (c : OracleCall),
      c ∈ make_inferences_calls parseLine ledger provider messages_dict →
      c.key ∉ load_solved_conflict_keys parseLine ledger := by
  unfold make_inferences_calls
  intro messages_dict
  suffices h : ∀ (dict : List (String × List MessageD)) (log : List OracleCall),
      (∀ c ∈ log, c.key ∉ load_solved_conflict_keys parseLine ledger) →
      ∀ c ∈ dict.foldl (fun log kv =>
        if kv.1 ∈ load_solved_conflict_keys parseLine ledger then log
        else log ++ [if provider = "openrouter" then OracleCall.openrouter kv.1 kv.2
                     else OracleCall.huggingface kv.1 kv.2 provider]) log,
        c.key ∉ load_solved_conflict_keys parseLine ledger by
    intro c hc
    exact h messages_dict [] (by simp) c hc
  intro dict
  induction dict with
  | nil => intro log hlog c hc; exact hlog c hc
  | cons kv rest ih =>
    intro log hlog c hc
    rw [List.foldl_cons] at hc
    by_cases hk : kv.1 ∈ load_solved_conflict_keys parseLine ledger
    · rw [if_pos hk] at hc
      exact ih log hlog c hc
    · rw [if_neg hk] at hc
      refine ih _ ?_ c hc
      intro d hd
      rcases List.mem_append.mp hd with h1 | h1
      · exact hlog d h1
      · have hdv : d = (if provider = "openrouter"
            then OracleCall.openrouter kv.1 kv.2
            else OracleCall.huggingface kv.1 kv.2 provider) := by simpa using h1
        have : d.key = kv.1 := by
          rw [hdv]
          by_cases hp : provider = "openrouter"
          · rw [if_pos hp]; rfl
          · rw [if_neg hp]; rfl
        rw [this]
        exact hk

/-- C2: `load_solved_conflict_keys` returns exactly the set of first keys of
the JSON-parseable non-blank ledger lines (malformed lines are skipped, the
load never aborts), and `make_inferences` never invokes the oracle client
(neither `query_openrouter` nor `query_huggingface_new`) for a key in that
solved set. -/
theorem ledger_idempotent_resumption (parseLine : String → Option (List String))
    (lines : List String) (provider : String)
    (messages_dict : List (String × List MessageD)) (k : String) :
    (k ∈ load_solved_conflict_keys parseLine (some lines)
      ↔ ∃ line ∈ lines, pyStrip line ≠ ""
          ∧ ∃ rest, parseLine line = some (k :: rest))
    ∧ (k ∈ load_solved_conflict_keys parseLine (some lines) →
        ∀ c ∈ make_inferences_calls parseLine (some lines) provider messages_dict,
          c.key ≠ k) := by
  constructor
  · unfold load_solved_conflict_keys
    rw [load_solved_go]
    simp
  · intro hk c hc hkey
    exact make_inferences_calls_unsolved parseLine (some lines) provider
      messages_dict c hc (hkey ▸ hk)

/-- C2 witness: a three-line ledger (one good line, one blank, one
malformed) yields exactly the solved key `"caseA"`, and a subsequent
`make_inferences` run over a dict containing `"caseA"` makes no oracle call
for it. -/
theorem ledger_idempotent_resumption_witness :
    ("caseA" ∈ load_solved_conflict_keys
        (fun line => if line = "lineA" then some ["caseA"] else none)
        (some ["lineA", "   ", "oops"]))
    ∧ (∀ c ∈ make_inferences_calls
        (fun line => if line = "lineA" then some ["caseA"] else none)
        (some ["lineA", "   ", "oops"]) "openrouter" [("caseA", [])],
        c.key ≠ "caseA") := by
  have h := ledger_idempotent_resumption
    (fun line => if line = "lineA" then some ["caseA"] else none)
    ["lineA", "   ", "oops"] "openrouter" [("caseA", [])] "caseA"
  have hmem : "caseA" ∈ load_solved_conflict_keys
      (fun line => if line = "lineA" then some ["caseA"] else none)
      (some ["lineA", "   ", "oops"]) := by decide
  exact ⟨hmem, h.2 hmem⟩

/-- C10: when the ledger file does not exist, `load_solved_conflict_keys`
returns the empty set without raising, so every conflict key is treated as
unsolved on a first run. -/
theorem load_solved_missing_file (parseLine : String → Option (List String)) :
    load_solved_conflict_keys parseLine none = []
    ∧ ∀ k : String, k ∉ load_solved_conflict_keys parseLine none := by
  refine ⟨rfl, ?_⟩
  intro k hk
  simp [load_solved_conflict_keys] at hk

/-- C10 witness: a concrete key is unsolved when no ledger file exists. -/
theorem load_solved_missing_file_witness :
    load_solved_conflict_keys (fun _ => none) none = []
    ∧ "caseA" ∉ load_solved_conflict_keys (fun _ => none) none :=
  ⟨(load_solved_missing_file (fun _ => none)).1,
    (load_solved_missing_file (fun _ => none)).2 "caseA"⟩

/-! ## Conflict Assembler
(`src/application/services/disambiguation.py`, `build_full_conflict`
lines 333-407, with the nested `strip_content_fields` lines 379-394 and
`enrich_and_collect_content` lines 341-367)

An `Entry` is the Python dict of one registry record: the reference fields
`webpage` / `repository` (an `Option` is `none` when the key is absent) plus
the remaining identity/descriptive fields, kept opaque.  The closure sets
`all_webpages` / `all_repos` mutated by `strip_content_fields` are threaded
explicitly; Python's `set.add` / `set.update` / `set.union` become
insert-if-absent on lists.  `enrich_link` is the external Link Enricher,
passed as a function parameter; the second component of the result of
`build_full_conflict` is the log of `enrich_link` invocations, in order. -/

structure RepoRef where
  kind : String
  url : String
deriving DecidableEq, Repr

structure Entry where
  webpage : Option (List String)
  repository : Option (List RepoRef)
  rest : List (String × String)
deriving DecidableEq, Repr

structure UrlSets where
  all_webpages : List String
  all_repos : List String
deriving DecidableEq, Repr

def setUpdate (s : List String) (xs : List String) : List String := xs.foldl setAdd s

def strip_content_fields (sets : UrlSets) (entry : Entry) : Entry × UrlSets :=
  let webpages := entry.webpage.getD []
  let repos := entry.repository.getD []
  let sets1 : UrlSets := { sets with all_webpages := setUpdate sets.all_webpages webpages }
  let sets2 := repos.foldl (fun st repo =>
    if repo.kind == "github" && pyIn "github.com" repo.url then
      { st with all_repos := setAdd st.all_repos repo.url }
    else if repo.kind == "bitbucket" && pyIn "bitbucket.com" repo.url then
      { st with all_repos := setAdd st.all_repos repo.url }
    else if repo.kind == "gitlab" && pyIn "gitlab.com" repo.url then
      { st with all_repos := setAdd st.all_repos repo.url }
    else
      { st with all_webpages := setAdd st.all_webpages repo.url }) sets1
  (entry, sets2)

/-- Evidence record returned by the Link Enricher for one URL
(`enrich_links.py`, `enrich_link`); metadata dict values are kept as opaque
association lists. -/
structure Enriched where
  url : String
  repo_metadata : Option (List (String × String)) := none
  readme_content : Option String := none
  project_metadata : Option (List (String × String)) := none
  content : Option String := none
deriving DecidableEq, Repr

inductive Body where
  | chunks (cs : List String)
  | metaV (m : List (String × String))
deriving DecidableEq, Repr

/-- Python truthiness of `d.get(field)` for a string field: `None` and `""`
are falsy. -/
def truthyS : Option String → Bool
  | none => false
  | some s => !(s == "")

/-- Python truthiness of `d.get(field)` for a dict field: `None` and `{}`
are falsy. -/
def truthyM : Option (List (String × String)) → Bool
  | none => false
  | some m => !m.isEmpty

/-- The body of the `enrich_and_collect_content` loop after the seen-set
check: build `contents[url]` from the enriched record, chunking the free
text fields. -/
def collect_enriched (enc : String → Nat) (maxT : Nat) (enriched : Enriched) :
    List (String × Body) :=
  (if truthyS enriched.content then
    [("Content", Body.chunks (chunk_text enc maxT (enriched.content.getD "")))] else [])
  ++ (if truthyS enriched.readme_content then
    [("README content", Body.chunks (chunk_text enc maxT (enriched.readme_content.getD "")))]
   else [])
  ++ (if truthyM enriched.repo_metadata then
    [("Repository metadata", Body.metaV (enriched.repo_metadata.getD []))] else [])
  ++ (if truthyM enriched.project_metadata then
    [("Project metadata", Body.metaV (enriched.project_metadata.getD []))] else [])

def enrich_and_collect_go (enrich : String → Enriched) (enc : String → Nat) (maxT : Nat) :
    List String → List String → List (String × List (String × Body)) → List String →
    List (String × List (String × Body)) × List String
  | [], _, contents, calls => (contents, calls)
  | url :: rest, seen, contents, calls =>
    if url ∈ seen ∨ url = "" then
      enrich_and_collect_go enrich enc maxT rest seen contents calls
    else
      enrich_and_collect_go enrich enc maxT rest (seen ++ [url])
        (contents ++ [(url, collect_enriched enc maxT (enrich url))]) (calls ++ [url])

def enrich_and_collect_content (enrich : String → Enriched) (enc : String → Nat)
    (maxT : Nat) (url_list : List String) :
    List (String × List (String × Body)) × List String :=
  enrich_and_collect_go enrich enc maxT url_list [] [] []

structure Conflict where
  disconnected : List Entry
  remaining : List Entry
deriving DecidableEq, Repr

structure FullConflict where
  disconnected : List Entry
  remaining : List Entry
  webpage_contents : List (String × List (String × Body))
deriving DecidableEq, Repr

/-- One iteration of the `for entry in conflict[...]` loops: append the
"stripped" copy and carry the URL sets. -/
def strip_fold_step (p : List Entry × UrlSets) (e : Entry) : List Entry × UrlSets :=
  let es := strip_content_fields p.2 e
  (p.1 ++ [es.1], es.2)

def build_full_conflict (enrich : String → Enriched) (enc : String → Nat) (maxT : Nat)
    (conflict : Conflict) : FullConflict × List String :=
  let pd := conflict.disconnected.foldl strip_fold_step ([], ⟨[], []⟩)
  let pr := conflict.remaining.foldl strip_fold_step ([], pd.2)
  let repos_and_webpages := setUpdate pr.2.all_webpages pr.2.all_repos
  let res := enrich_and_collect_content enrich enc maxT repos_and_webpages
  (⟨pd.1, pr.1, res.1⟩, res.2)

theorem enrich_go_nodup (enrich : String → Enriched) (enc : String → Nat) (maxT : Nat) :
    ∀ (urls seen : List String) (contents : List (String × List (String × Body)))
      (calls : List String),
      contents.map Prod.fst = calls → calls.Nodup → (∀ u ∈ calls, u ∈ seen) →
      (enrich_and_collect_go enrich enc maxT urls seen contents calls).1.map Prod.fst
        = (enrich_and_collect_go enrich enc maxT urls seen contents calls).2
      ∧ (enrich_and_collect_go enrich enc maxT urls seen contents calls).2.Nodup := by
  intro urls
  induction urls with
  | nil => intro seen contents calls hmap hnd _; exact ⟨hmap, hnd⟩
  | cons url rest ih =>
    intro seen contents calls hmap hnd hsub
    simp only [enrich_and_collect_go]
    by_cases h : url ∈ seen ∨ url = ""
    · rw [if_pos h]
      exact ih seen contents calls hmap hnd hsub
    · rw [if_neg h]
      have hnotseen : url ∉ seen := fun hc => h (Or.inl hc)
      refine ih (seen ++ [url]) _ (calls ++ [url]) (by simp [hmap]) ?_ ?_
      · rw [List.nodup_append]
        refine ⟨hnd, by simp, ?_⟩
        intro a ha hb
        have : a = url := by simpa using hb
        subst this
        exact hnotseen (hsub a ha)
      · intro u hu
        rcases List.mem_append.mp hu with h1 | h1
        · exact List.mem_append.mpr (Or.inl (hsub u h1))
        · exact List.mem_append.mpr (Or.inr h1)

/-- C3: however often the same URL appears across the entries' webpage and
repository reference lists of either partition, `build_full_conflict`
produces a `webpage_contents` mapping with no duplicate URL key, the
enrichment-call log has no duplicate URL (the seen-set is consulted before
`enrich_link` is invoked), and the keys are exactly the called URLs in
order. -/
theorem dedup_enrichment (enrich : String → Enriched) (enc : String → Nat)
    (maxT : Nat) (conflict : Conflict) :
    ((build_full_conflict enrich enc maxT conflict).1.webpage_contents.map Prod.fst).Nodup
    ∧ (build_full_conflict enrich enc maxT conflict).2.Nodup
    ∧ (build_full_conflict enrich enc maxT conflict).1.webpage_contents.map Prod.fst
        = (build_full_conflict enrich enc maxT conflict).2 := by
  have h := enrich_go_nodup enrich enc maxT
    (setUpdate ((conflict.remaining.foldl strip_fold_step
        ([], (conflict.disconnected.foldl strip_fold_step ([], ⟨[], []⟩)).2)).2.all_webpages)
      ((conflict.remaining.foldl strip_fold_step
        ([], (conflict.disconnected.foldl strip_fold_step ([], ⟨[], []⟩)).2)).2.all_repos))
    [] [] [] rfl (by simp) (by simp)
  exact ⟨h.1 ▸ h.2, h.2, h.1⟩

theorem strip_fold_fst : ∀ (es acc : List Entry) (st : UrlSets),
    (es.foldl strip_fold_step (acc, st)).1 = acc ++ es := by
  intro es
  induction es with
  | nil => intro acc st; simp
  | cons e es ih =>
    intro acc st
    rw [List.foldl_cons]
    have : strip_fold_step (acc, st) e
        = (acc ++ [e], (strip_content_fields st e).2) := rfl
    rw [this, ih]
    simp

/-- C5 (amended): `strip_content_fields` collects each entry's repository
and webpage references into the URL sets but does NOT remove those fields
from the copy: the entries placed into the output `disconnected` and
`remaining` partitions are the input entries unchanged, raw links
included. -/
theorem partitions_keep_reference_fields (enrich : String → Enriched)
    (enc : String → Nat) (maxT : Nat) (conflict : Conflict) :
    (build_full_conflict enrich enc maxT conflict).1.disconnected = conflict.disconnected
    ∧ (build_full_conflict enrich enc maxT conflict).1.remaining = conflict.remaining
    ∧ ∀ (st : UrlSets) (e : Entry), (strip_content_fields st e).1 = e := by
  refine ⟨?_, ?_, fun _ _ => rfl⟩
  · show (conflict.disconnected.foldl strip_fold_step ([], ⟨[], []⟩)).1 = _
    rw [strip_fold_fst]
    simp
  · show (conflict.remaining.foldl strip_fold_step
      ([], (conflict.disconnected.foldl strip_fold_step ([], ⟨[], []⟩)).2)).1 = _
    rw [strip_fold_fst]
    simp

def cexEntry : Entry :=
  ⟨some ["https://example.com"], some [⟨"github", "https://github.com/o/r"⟩],
    [("name", "toolA")]⟩

def cexConflict : Conflict := ⟨[cexEntry], []⟩

def cexEnrich : String → Enriched := fun u => { url := u }

/-- C5 counterexample: for a concrete conflict whose single disconnected
entry carries a webpage reference and a github repository reference, the
entry placed into the output partition still has both reference fields —
they are not stripped, so the partitions do not contain identity fields
only. -/
theorem strip_content_fields_counterexample :
    ¬ (∀ e ∈ (build_full_conflict cexEnrich String.length 8000 cexConflict).1.disconnected
          ++ (build_full_conflict cexEnrich String.length 8000 cexConflict).1.remaining,
        e.webpage = none ∧ e.repository = none) := by decide

/-! ## Link Enricher
(`src/application/services/enrich_links.py`, `enrich_link` lines 431-511,
`get_gitlab_repo_metadata` lines 116-133, `parse_gitlab_repo_url`
lines 101-114)

External I/O is an `Effects` bundle.  Helpers whose Python bodies catch all
their exceptions internally are total parameters returning `Option`/plain
values (`request_github_metadata`, `request_github_readme`,
`get_gitlab_repo_readme`, `get_pypi_project_info`,
`extract_sourceforge_project_info`, `get_bitbucket_metadata`,
`get_bitbucket_readme`, `get_link_content`/`extract_with_playwright`,
`extract_main_text_from_html`, `get_redirect`).  The GitLab project-API
request (`requests.get` + `response.json()` inside
`get_gitlab_repo_metadata`) is NOT caught anywhere, so it is a `NetResult`
whose failure propagates. -/

inductive NetResult (β : Type) where
  | exc (msg : String)
  | resp (status : Nat) (body : β)
deriving DecidableEq, Repr

structure GitlabResp where
  raw : String
  parsed : Option (List (String × String))
deriving DecidableEq, Repr

structure Effects where
  redirect : String → Option String
  ghMeta : String → String → Option (List (String × String))
  ghReadme : String → String → Option String
  gitlabApi : String → NetResult GitlabResp
  gitlabReadme : String → String → Option String
  pypi : String → Option (List (String × String))
  browser : String → Option String
  sfParse : Option String → List (String × String)
  bbMeta : Option (String × String) → List (String × String)
  bbReadme : Option (String × String) → List (String × String) → Option String
  htmlText : String → String

/-- Python `str.split(sep)` for a one-character separator (keeps empty
pieces). -/
def splitOnChar (sep : Char) : List Char → List Char → List String
  | [], cur => [String.mk cur.reverse]
  | c :: cs, cur =>
    if c == sep then String.mk cur.reverse :: splitOnChar sep cs []
    else splitOnChar sep cs (c :: cur)

def pySplitChar (s : String) (sep : Char) : List String := splitOnChar sep s.data []

/-- Python `str.split(sep)` for a multi-character separator; `fuel` bounds
the scan by the text length. -/
def splitOnSubGo (sep : List Char) : Nat → List Char → List Char → List String
  | 0, text, cur => [String.mk (cur.reverse ++ text)]
  | fuel + 1, text, cur =>
    if isSubAt sep text && !sep.isEmpty then
      String.mk cur.reverse :: splitOnSubGo sep fuel (text.drop sep.length) []
    else match text with
      | [] => [String.mk cur.reverse]
      | c :: cs => splitOnSubGo sep fuel cs (cur ++ [c])

def pySplitOnSub (s sep : String) : List String :=
  splitOnSubGo sep.data (s.data.length + 1) s.data []

/-- `urllib.parse.quote(s, safe="")` restricted to one-byte characters:
unreserved characters pass, everything else is percent-encoded with
uppercase hex. -/
def isUnreserved (c : Char) : Bool :=
  c.isAlphanum || c == '-' || c == '.' || c == '_' || c == '~'

def hexDigit (n : Nat) : Char := if n < 10 then Char.ofNat (48 + n) else Char.ofNat (55 + n)

def percentEncodeChar (c : Char) : List Char :=
  if isUnreserved c then [c]
  else ['%', hexDigit (c.toNat / 16), hexDigit (c.toNat % 16)]

def urlQuote (s : String) : String := String.mk (s.data.flatMap percentEncodeChar)

/-- One attempt of the regex `https?://gitlab\.com/([^/]+/[^/]+)` at the
head of `cs`, returning the captured `namespace/project`. -/
def matchGitlabAt (cs : List Char) : Option String :=
  let after :=
    if isSubAt "https://gitlab.com/".data cs then some (cs.drop 19)
    else if isSubAt "http://gitlab.com/".data cs then some (cs.drop 18)
    else none
  match after with
  | none => none
  | some r =>
    let ns := r.takeWhile (fun c => c != '/')
    match r.drop ns.length with
    | '/' :: r2 =>
      let name := r2.takeWhile (fun c => c != '/')
      if ns.isEmpty || name.isEmpty then none
      else some (String.mk (ns ++ '/' :: name))
    | _ => none

/-- `re.search` of the GitLab pattern: first position where it matches. -/
def searchGitlab : List Char → Option String
  | [] => none
  | c :: rest =>
    match matchGitlabAt (c :: rest) with
    | some m => some m
    | none => searchGitlab rest

def parse_gitlab_repo_url (repo_url : String) : Except String String :=
  match searchGitlab repo_url.data with
  | none => .error "Invalid GitLab repository URL."
  | some namespace_repo => .ok (urlQuote namespace_repo)

def get_gitlab_repo_metadata (eff : Effects) (repo_url : String) :
    Except String (List (String × String)) :=
  match parse_gitlab_repo_url repo_url with
  | .error e => .error e
  | .ok encoded_project =>
    match eff.gitlabApi ("https://gitlab.com/api/v4/projects/" ++ encoded_project) with
    | .exc m => .error m
    | .resp status body =>
      if status ≠ 200 then
        .error ("Failed to get metadata. Status code: " ++ toString status
          ++ ", Response: " ++ body.raw)
      else match body.parsed with
        | some j => .ok j
        | none => .error "JSONDecodeError"

/-- `re.match(r"https?://bitbucket.org/([^/]+)/([^/]+)", link)` (anchored at
the start; the unescaped dots are modeled as literal dots). -/
def matchBitbucket (link : String) : Option (String × String) :=
  let cs := link.data
  let after :=
    if isSubAt "https://bitbucket.org/".data cs then some (cs.drop 22)
    else if isSubAt "http://bitbucket.org/".data cs then some (cs.drop 21)
    else none
  match after with
  | none => none
  | some r =>
    let user := r.takeWhile (fun c => c != '/')
    match r.drop user.length with
    | '/' :: r2 =>
      let repo := r2.takeWhile (fun c => c != '/')
      if user.isEmpty || repo.isEmpty then none
      else some (String.mk user, String.mk repo)
    | _ => none

def lookupKey (m : List (String × String)) (k : String) : Option String :=
  (m.find? (fun p => p.1 == k)).map Prod.snd

def enrich_link (eff : Effects) (link0 : String) : Except String Enriched :=
  let base : Enriched := { url := link0 }
  match eff.redirect link0 with
  | none => .ok base
  | some link =>
    let step1 : Except String (Enriched × Bool) :=
      if pyIn "github.com" link then
        let parts := pySplitChar link '/'
        if parts.length ≥ 5 then
          .ok ({ base with
                  repo_metadata := eff.ghMeta (parts.getD 3 "") (parts.getD 4 ""),
                  readme_content := eff.ghReadme (parts.getD 3 "") (parts.getD 4 "") },
               true)
        else .ok (base, false)
      else if pyIn "gitlab.com" link then
        match get_gitlab_repo_metadata eff link with
        | .error e => .error e
        | .ok metadata =>
          let rec1 := { base with repo_metadata := some metadata }
          if !metadata.isEmpty then
            match lookupKey metadata "readme_url" with
            | some readme_url =>
              if readme_url ≠ "" then
                .ok ({ rec1 with readme_content := eff.gitlabReadme readme_url link }, true)
              else .ok (rec1, false)
            | none => .ok (rec1, false)
          else .ok (rec1, false)
      else if pyIn "pypi.org/project/" link then
        let package_name :=
          (pySplitChar ((pySplitOnSub link "pypi.org/project/").getD 1 "") '/').getD 0 ""
        .ok ({ base with project_metadata := eff.pypi package_name }, true)
      else .ok (base, false)
    match step1 with
    | .error e => .error e
    | .ok p1 =>
      let p2 : Enriched × Bool :=
        if pyIn "sourceforge.net/projects/" link || pyIn "sf.net/p/" link
            || pyIn "sourceforge.net/p/" link then
          ({ p1.1 with project_metadata := some (eff.sfParse (eff.browser link)) }, true)
        else if pyIn "bitbucket.org" link then
          let ur := matchBitbucket link
          let metadata := eff.bbMeta ur
          let recB := { p1.1 with repo_metadata := some metadata }
          if !metadata.isEmpty && (lookupKey metadata "main_branch").isSome then
            ({ recB with readme_content := eff.bbReadme ur metadata }, true)
          else (recB, true)
        else if pyIn "git.bioconductor" link then
          ({ p1.1 with repo_metadata := some [("url", link)] }, true)
        else p1
      if !p2.2 then
        match eff.browser link with
        | some content =>
          if content ≠ "" then .ok { p2.1 with content := some (eff.htmlText content) }
          else .ok p2.1
        | none => .ok p2.1
      else .ok p2.1

/-- Effects where every external source fails benignly and the GitLab
project API answers 404. -/
def gitlabFailEffects : Effects :=
  ⟨fun l => some l, fun _ _ => none, fun _ _ => none,
   fun _ => .resp 404 ⟨"Not Found", none⟩, fun _ _ => none,
   fun _ => none, fun _ => none, fun _ => [], fun _ => [], fun _ _ => none,
   fun s => s⟩

/-- C4 (code bug): `enrich_link` is NOT exception-free.  For the URL
`https://gitlab.com/foo/bar`, when the GitLab project API answers 404,
`get_gitlab_repo_metadata` raises and the GitLab branch of `enrich_link`
has no try/except (unlike the GitHub, SourceForge and Bitbucket branches),
so the exception propagates to the caller instead of degrading to a partial
record; under the same failing effects a Bitbucket URL degrades to a
partial record as the claim describes. -/
theorem enrich_link_gitlab_raises :
    enrich_link gitlabFailEffects "https://gitlab.com/foo/bar"
      = .error "Failed to get metadata. Status code: 404, Response: Not Found"
    ∧ enrich_link gitlabFailEffects "https://bitbucket.org/u/r"
      = .ok { url := "https://bitbucket.org/u/r", repo_metadata := some [] } := by
  constructor <;> rfl

/-! ## Resolution Oracle Client
(`src/application/services/disambiguation.py`, `query_openrouter`
lines 211-240, `query_huggingface_new` lines 245-274, `query_huggingface`
lines 276-307)

A network interaction is a function from the attempt index to a
`NetResult`: `.exc` models `requests.post` raising, `.resp` an HTTP
response.  A response body is a `RespBody`: `.badJson msg` means the body
is not valid JSON, so EVERY `response.json()` call raises
`JSONDecodeError(msg)` — including the ones inside the except handlers
(`logging.warning(response.json())` at line 237 and the handler f-string at
line 271), which therefore re-raise out of the function; `.json parsed`
means the body is valid JSON, with `parsed = none` when the expected
fields are missing (the key-indexing raises, the handler's own
`response.json()` succeeds, and control falls through to the empty
return).  `query_openrouter` carries `@retry(stop=stop_after_attempt(3),
wait=wait_exponential(multiplier=1, min=2, max=10))`; tenacity retries on
any exception the attempt raises (a network failure or the re-raised
JSON error) and the last error escapes after the third attempt.  The
decorator on `query_huggingface_new` is commented out and
`query_huggingface` never had one, so both make a single attempt.
`query_huggingface` additionally evaluates
`logging.info(f"API response: {response.json()}")` at line 296 BEFORE its
status check, so a non-JSON body raises there for every status code. -/

structure ChatBody where
  content : String
  usage : List (String × String)
  provider : String
deriving DecidableEq, Repr

inductive RespBody (β : Type) where
  | badJson (msg : String)
  | json (parsed : Option β)
deriving DecidableEq, Repr

/-- Python dict assignment `meta[k] = v`. -/
def setAssign (m : List (String × String)) (k v : String) : List (String × String) :=
  if (m.find? (fun p => p.1 == k)).isSome then
    m.map (fun p => if p.1 == k then (k, v) else p)
  else m ++ [(k, v)]

/-- tenacity `wait_exponential(multiplier, min, max)` at sleep number `n`
(first sleep is `n = 1`): `multiplier * 2^n` clamped into `[min, max]`. -/
def wait_exponential (multiplier lo hi n : Nat) : Nat :=
  max lo (min (multiplier * 2 ^ n) hi)

/-- tenacity bounded retry: up to `n` attempts, retrying only when the
wrapped call raises, the last error escaping. -/
def retryCall (f : Nat → Except String α) : Nat → Nat → Except String α
  | _, 0 => .error "RetryError"
  | i, 1 => f i
  | i, n + 2 =>
    match f i with
    | .ok a => .ok a
    | .error _ => retryCall f (i + 1) (n + 1)

/-- One attempt of `query_openrouter`: 200 + valid JSON with the expected
fields + non-empty content returns `(content, usage+provider)`; a 200
non-JSON body raises (the except handler at line 237 re-invokes
`response.json()`); a 200 valid-JSON body without the fields, or any
non-200 response, falls through to `return '', {}`. -/
def query_openrouter_attempt (net : Nat → NetResult (RespBody ChatBody)) (i : Nat) :
    Except String (String × List (String × String)) :=
  match net i with
  | .exc m => .error m
  | .resp status body =>
    if status == 200 then
      match body with
      | .badJson m => .error m
      | .json (some b) =>
        let content := pyStrip b.content
        let meta := setAssign b.usage "provider" b.provider
        if content ≠ "" then .ok (content, meta) else .ok ("", [])
      | .json none => .ok ("", [])
    else .ok ("", [])

def query_openrouter (net : Nat → NetResult (RespBody ChatBody)) :
    Except String (String × List (String × String)) :=
  retryCall (query_openrouter_attempt net) 0 3

/-- Single attempt, no retry; a 200 non-JSON body raises because the
handler f-string at line 271 re-invokes `response.json()`. -/
def query_huggingface_new (net : Nat → NetResult (RespBody ChatBody))
    (_model provider : String) : Except String (String × List (String × String)) :=
  match net 0 with
  | .exc m => .error m
  | .resp status body =>
    if status == 200 then
      match body with
      | .badJson m => .error m
      | .json (some b) =>
        let content := pyStrip b.content
        let meta := setAssign b.usage "provider" provider
        if content ≠ "" then .ok (content, meta) else .ok ("", [])
      | .json none => .ok ("", [])
    else .ok ("", [])

/-- `query_huggingface` logs `response.json()` before the status check
(line 296), so any non-JSON body raises regardless of status; on a
parseable 200 it returns the tuple `(generated_text, {})`, and otherwise
bare `None`. -/
def query_huggingface (net : Nat → NetResult (RespBody String)) (_model : String) :
    Except String (Option (String × List (String × String))) :=
  match net 0 with
  | .exc m => .error m
  | .resp status body =>
    match body with
    | .badJson m => .error m
    | .json parsed =>
      if status == 200 then
        match parsed with
        | some generated => .ok (some (pyStrip generated, []))
        | none => .ok none
      else .ok none

def netFlaky : Nat → NetResult (RespBody ChatBody) :=
  fun i => if i = 0 then .exc "boom" else .resp 200 (.json (some ⟨"yes", [], "prov"⟩))

def netBad200 : Nat → NetResult (RespBody ChatBody) :=
  fun _ => .resp 200 (.badJson "Expecting value")

def net500 : Nat → NetResult (RespBody String) := fun _ => .resp 500 (.json none)

/-- C9 counterexample: with a network that raises on the first attempt and
answers on the second, the retried `query_openrouter` succeeds but
`query_huggingface_new` propagates the first exception (its retry decorator
is commented out), so not both variants apply bounded retry.  With a 200
response whose body is not valid JSON, all chat variants raise — the
except handlers re-invoke `response.json()` — instead of returning the
empty answer (`query_openrouter` raising after its three attempts).  And
on a non-success response with a JSON body, `query_huggingface` returns
Python `None`, not the empty answer/metadata pair the claim states. -/
theorem oracle_retry_counterexample :
    query_huggingface_new netFlaky "m" "p" = .error "boom"
    ∧ query_openrouter netFlaky = .ok ("yes", [("provider", "prov")])
    ∧ query_openrouter netBad200 = .error "Expecting value"
    ∧ query_huggingface_new netBad200 "m" "p" = .error "Expecting value"
    ∧ query_huggingface net500 "m" = .ok none
    ∧ (none : Option (String × List (String × String))) ≠ some ("", []) :=
  ⟨rfl, rfl, rfl, rfl, rfl, by simp⟩

/-- C9 (amended): only `query_openrouter` applies bounded retry
(3 attempts, exponential backoff doubling from floor 2 to ceiling 10),
retrying any exception the attempt raises — a network failure, or a 200
response whose non-JSON body makes the except handler re-raise — and
propagating the last error after the third attempt; `query_huggingface_new`
and `query_huggingface` make a single attempt and propagate such
exceptions.  On a non-success HTTP response, or on a valid-JSON 200 body
lacking the expected fields, `query_openrouter` and `query_huggingface_new`
return `('', {})` and `query_huggingface` returns `None`;
`query_huggingface` raises on any non-JSON body regardless of status,
since it logs `response.json()` before its status check. -/
theorem oracle_retry_amended (net : Nat → NetResult (RespBody ChatBody))
    (netS : Nat → NetResult (RespBody String)) (model provider : String) :
    (∀ a, query_openrouter_attempt net 0 = .ok a → query_openrouter net = .ok a)
    ∧ (∀ e a, query_openrouter_attempt net 0 = .error e →
        query_openrouter_attempt net 1 = .ok a → query_openrouter net = .ok a)
    ∧ (∀ e0 e1 e2, query_openrouter_attempt net 0 = .error e0 →
        query_openrouter_attempt net 1 = .error e1 →
        query_openrouter_attempt net 2 = .error e2 →
        query_openrouter net = .error e2)
    ∧ (∀ i e, net i = .exc e → query_openrouter_attempt net i = .error e)
    ∧ (∀ i m, net i = .resp 200 (.badJson m) →
        query_openrouter_attempt net i = .error m)
    ∧ (∀ i status body, net i = .resp status body → status ≠ 200 →
        query_openrouter_attempt net i = .ok ("", []))
    ∧ (∀ i, net i = .resp 200 (.json none) →
        query_openrouter_attempt net i = .ok ("", []))
    ∧ (∀ e, net 0 = .exc e → query_huggingface_new net model provider = .error e)
    ∧ (∀ m, net 0 = .resp 200 (.badJson m) →
        query_huggingface_new net model provider = .error m)
    ∧ (∀ status body, net 0 = .resp status body → status ≠ 200 →
        query_huggingface_new net model provider = .ok ("", []))
    ∧ (net 0 = .resp 200 (.json none) →
        query_huggingface_new net model provider = .ok ("", []))
    ∧ (∀ e, netS 0 = .exc e → query_huggingface netS model = .error e)
    ∧ (∀ status m, netS 0 = .resp status (.badJson m) →
        query_huggingface netS model = .error m)
    ∧ (∀ status parsed, netS 0 = .resp status (.json parsed) → status ≠ 200 →
        query_huggingface netS model = .ok none)
    ∧ (netS 0 = .resp 200 (.json none) → query_huggingface netS model = .ok none)
    ∧ wait_exponential 1 2 10 1 = 2 ∧ wait_exponential 1 2 10 2 = 4
    ∧ wait_exponential 1 2 10 3 = 8 ∧ wait_exponential 1 2 10 4 = 10 := by
  refine ⟨?_, ?_, ?_, ?_, ?_, ?_, ?_, ?_, ?_, ?_, ?_, ?_, ?_, ?_, ?_,
    rfl, rfl, rfl, rfl⟩
  · intro a h
    unfold query_openrouter
    simp only [retryCall]
    rw [h]
  · intro e a h1 h2
    unfold query_openrouter
    simp only [retryCall]
    rw [h1]
    simp only [retryCall]
    rw [h2]
  · intro e0 e1 e2 h0 h1 h2
    unfold query_openrouter
    simp only [retryCall]
    rw [h0]
    simp only [retryCall]
    rw [h1]
    simp only [retryCall]
    exact h2
  · intro i e h
    simp [query_openrouter_attempt, h]
  · intro i m h
    simp [query_openrouter_attempt, h]
  · intro i status body h hs
    simp [query_openrouter_attempt, h, hs]
  · intro i h
    simp [query_openrouter_attempt, h]
  · intro e h
    simp [query_huggingface_new, h]
  · intro m h
    simp [query_huggingface_new, h]
  · intro status body h hs
    simp [query_huggingface_new, h, hs]
  · intro h
    simp [query_huggingface_new, h]
  · intro e h
    simp [query_huggingface, h]
  · intro status m h
    simp [query_huggingface, h]
  · intro status parsed h hs
    simp [query_huggingface, h, hs]
  · intro h
    simp [query_huggingface, h]

/-- C9 witness: the amended behaviors at the concrete networks: the
second-attempt success is returned by the retried `query_openrouter`, and
`query_huggingface` yields `None` on a 500 with a JSON body. -/
theorem oracle_retry_amended_witness :
    query_openrouter netFlaky = .ok ("yes", [("provider", "prov")])
    ∧ query_huggingface net500 "m" = .ok none := by
  obtain ⟨h1, h2, h3, h4, h5, h6, h7, h8, h9, h10, h11, h12, h13, h14, h15, hw⟩ :=
    oracle_retry_amended netFlaky net500 "m" "p"
  exact ⟨h2 "boom" ("yes", [("provider", "prov")]) rfl rfl,
    h14 500 none rfl (by decide)⟩


/-! ## Result Parser
(`src/application/services/disambiguation.py`, `parse_result` lines 410-441)

`json.loads` is an external library, taken as the parameter `parse`
(`none` = `json.JSONDecodeError`, which the source catches, returning `{}`).
`searchFence` implements `re.search(r"```(?:json|python)?\s*(\{.*?\})\s*```",
text, re.DOTALL)`: the earliest position opening with three backticks where
an optional `json`/`python` tag, optional whitespace, and a lazily-matched
brace-delimited block followed by optional whitespace and three closing
backticks all match (the alternation tries `json`, then `python`, then the
empty tag; since `\s*` matches only whitespace and `\{` only a brace, the
whitespace skips are forced).  `searchBracesGo` implements the fallback
`re.search(r"(\{.*\})", text, re.DOTALL)`: from the first opening brace that
has a later closing brace, greedily to the last closing brace. -/

/-- Lazy `(\{.*?\})\s*```` closing scan: the first `}` followed by
whitespace and three backticks; returns the characters between the
braces. -/
def fenceClose : List Char → List Char → Option (List Char)
  | [], _ => none
  | c :: cs, acc =>
    if c == '}' && isSubAt ['`', '`', '`'] (cs.dropWhile Char.isWhitespace) then
      some acc.reverse
    else fenceClose cs (c :: acc)

def fenceTryTag (tag : List Char) (p : List Char) : Option (List Char) :=
  if isSubAt tag p then
    match (p.drop tag.length).dropWhile Char.isWhitespace with
    | '{' :: r2 =>
      match fenceClose r2 [] with
      | some inner => some ('{' :: (inner ++ ['}']))
      | none => none
    | _ => none
  else none

def fenceAt (cs : List Char) : Option (List Char) :=
  if isSubAt ['`', '`', '`'] cs then
    match fenceTryTag "json".data (cs.drop 3) with
    | some m => some m
    | none =>
      match fenceTryTag "python".data (cs.drop 3) with
      | some m => some m
      | none => fenceTryTag [] (cs.drop 3)
  else none

def searchFence : List Char → Option (List Char)
  | [] => none
  | c :: cs =>
    match fenceAt (c :: cs) with
    | some m => some m
    | none => searchFence cs

/-- Prefix of `cs` up to and including the last `}` of `cs`. -/
def takeToLastClose (cs : List Char) : List Char :=
  (cs.reverse.dropWhile (fun c => c != '}')).reverse

def searchBracesGo : List Char → Option (List Char)
  | [] => none
  | c :: cs =>
    if c == '{' && cs.contains '}' then some ('{' :: takeToLastClose cs)
    else searchBracesGo cs

def parse_result {J : Type} (emptyObj : J) (parse : String → Option J) (text : String) : J :=
  match searchFence text.data with
  | some json_str => (parse (String.mk json_str)).getD emptyObj
  | none =>
    match searchBracesGo text.data with
    | some json_str => (parse (String.mk json_str)).getD emptyObj
    | none => emptyObj

/-- The claim's extraction order, following the spec's words: (1) a fenced
code block tagged `json` or a language-less fence, whose contents are parsed
as JSON; (2) otherwise the brace-delimited substring from the first opening
brace to the last closing brace; (3) empty on no candidate or parse
failure.  (Used only to compare the claim against `parse_result`.) -/
def upToTicks : List Char → Option (List Char)
  | [] => none
  | c :: cs =>
    if isSubAt ['`', '`', '`'] (c :: cs) then some []
    else (upToTicks cs).map (fun r => c :: r)

def fenceClaimAt (cs : List Char) : Option (List Char) :=
  if isSubAt ['`', '`', '`'] cs then
    let p := cs.drop 3
    let tag := p.takeWhile (fun c => !c.isWhitespace && c != '`')
    if tag.isEmpty || tag = "json".data then upToTicks (p.drop tag.length)
    else none
  else none

def searchFenceClaim : List Char → Option (List Char)
  | [] => none
  | c :: cs =>
    match fenceClaimAt (c :: cs) with
    | some m => some m
    | none => searchFenceClaim cs

def parse_result_claim {J : Type} (emptyObj : J) (parse : String → Option J)
    (text : String) : J :=
  match searchFenceClaim text.data with
  | some contents => (parse (String.mk contents)).getD emptyObj
  | none =>
    match searchBracesGo text.data with
    | some json_str => (parse (String.mk json_str)).getD emptyObj
    | none => emptyObj

theorem dropWhile_head_not {α : Type} (p : α → Bool) :
    ∀ (l : List α) (c : α) (cs : List α), l.dropWhile p = c :: cs → p c = false := by
  intro l
  induction l with
  | nil => intro c cs h; simp [List.dropWhile] at h
  | cons x xs ih =>
    intro c cs h
    by_cases hx : p x
    · rw [List.dropWhile_cons_of_pos hx] at h
      exact ih c cs h
    · rw [List.dropWhile_cons_of_neg hx] at h
      cases h
      simpa using hx

theorem takeToLastClose_spec (cs : List Char) (h : cs.contains '}') :
    ∃ mid post, cs = (mid ++ ['}']) ++ post ∧ '}' ∉ post
      ∧ takeToLastClose cs = mid ++ ['}'] := by
  have hmem : ('}' : Char) ∈ cs.reverse := by
    have : ('}' : Char) ∈ cs := by
      have := h
      simp only [List.contains] at this
      exact (List.elem_iff).mp this
    simpa using this
  cases hdw : cs.reverse.dropWhile (fun c => c != '}') with
  | nil =>
    exfalso
    have hta : cs.reverse.takeWhile (fun c => c != '}') = cs.reverse := by
      have := List.takeWhile_append_dropWhile (p := fun c => c != '}') (l := cs.reverse)
      rw [hdw] at this
      simpa using this
    rw [← hta] at hmem
    have := List.mem_takeWhile_imp hmem
    simp at this
  | cons c tail =>
    have hc : (fun c => c != '}') c = false := dropWhile_head_not _ _ c tail hdw
    have hceq : c = '}' := by simpa using hc
    subst hceq
    have hsplit : cs.reverse.takeWhile (fun c => c != '}') ++ '}' :: tail = cs.reverse := by
      have := List.takeWhile_append_dropWhile (p := fun c => c != '}') (l := cs.reverse)
      rw [hdw] at this
      exact this
    refine ⟨tail.reverse, (cs.reverse.takeWhile (fun c => c != '}')).reverse, ?_, ?_, ?_⟩
    · have hcs : cs = ((cs.reverse.takeWhile (fun c => c != '}')) ++ '}' :: tail).reverse := by
        conv_lhs => rw [← cs.reverse_reverse]
        rw [hsplit]
      conv_lhs => rw [hcs]
      simp
    · intro hmem2
      have : '}' ∈ cs.reverse.takeWhile (fun c => c != '}') := by simpa using hmem2
      have := List.mem_takeWhile_imp this
      simp at this
    · unfold takeToLastClose
      rw [hdw]
      simp

/-- `searchBracesGo` returns the substring from the first opening brace (no
earlier `{` exists in the text, since any earlier `{` would precede the
closing brace inside the match) to the last closing brace (no `}` remains
after the match). -/
theorem searchBracesGo_spec :
    ∀ (cs s : List Char), searchBracesGo cs = some s →
      ∃ pre post, cs = pre ++ s ++ post ∧ '{' ∉ pre ∧ '}' ∉ post
        ∧ ∃ mid, s = '{' :: (mid ++ ['}']) := by
  intro cs
  induction cs with
  | nil => intro s h; simp [searchBracesGo] at h
  | cons c cs ih =>
    intro s h
    by_cases hc : c == '{' && cs.contains '}'
    · unfold searchBracesGo at h
      rw [if_pos hc] at h
      have hceq : c = '{' := by
        have := (Bool.and_eq_true _ _).mp hc
        simpa using this.1
      have hcon : cs.contains '}' := (Bool.and_eq_true _ _).mp hc |>.2
      obtain ⟨mid, post, hsp, hpost, htk⟩ := takeToLastClose_spec cs hcon
      cases h
      refine ⟨[], post, ?_, by simp, hpost, mid, by rw [htk]⟩
      rw [hceq, htk, hsp]
      simp
    · unfold searchBracesGo at h
      rw [if_neg hc] at h
      obtain ⟨pre, post, hsp, hpre, hpost, mid, hs⟩ := ih s h
      refine ⟨c :: pre, post, by rw [hsp]; rfl, ?_, hpost, mid, hs⟩
      intro hmem
      rcases List.mem_cons.mp hmem with hceq | hmem2
      · have hcc : c = '{' := hceq.symm
        subst hcc
        have hins : ('}' : Char) ∈ s := by
          rw [hs]; simp
        have hin : ('}' : Char) ∈ cs := by
          rw [hsp]
          simp [hins]
        exact absurd (by simp [hin]) hc
      · exact hpre hmem2

theorem fenceTryTag_shape (tag p s : List Char) (h : fenceTryTag tag p = some s) :
    ∃ mid, s = '{' :: (mid ++ ['}']) := by
  unfold fenceTryTag at h
  split at h
  · split at h
    · split at h
      · cases h
        exact ⟨_, rfl⟩
      · simp at h
    · simp at h
  · simp at h

theorem fenceAt_shape (cs s : List Char) (h : fenceAt cs = some s) :
    ∃ mid, s = '{' :: (mid ++ ['}']) := by
  unfold fenceAt at h
  split at h
  · split at h
    · cases h
      exact fenceTryTag_shape _ _ _ (by assumption)
    · split at h
      · cases h
        exact fenceTryTag_shape _ _ _ (by assumption)
      · exact fenceTryTag_shape _ _ _ h
  · simp at h

theorem searchFence_shape :
    ∀ (cs s : List Char), searchFence cs = some s → ∃ mid, s = '{' :: (mid ++ ['}']) := by
  intro cs
  induction cs with
  | nil => intro s h; simp [searchFence] at h
  | cons c rest ih =>
    intro s h
    unfold searchFence at h
    split at h
    · cases h
      exact fenceAt_shape _ _ (by assumption)
    · exact ih s h

/-- C8 (amended): `parse_result` never raises; it (1) first looks for a
fenced code block tagged `json`, tagged `python`, or language-less, whose
content (after optional whitespace) is a lazily-delimited brace block
followed by whitespace and the closing fence, and JSON-parses that block;
(2) otherwise takes the substring from the first opening brace (no `{`
precedes it) to the last closing brace (no `}` follows it) and parses that;
(3) when no candidate exists, or when the JSON parse of the candidate
fails, it returns the empty result. -/
theorem parse_result_extraction {J : Type} (emptyObj : J) (parse : String → Option J)
    (text : String) :
    (∀ s, searchFence text.data = some s →
        parse_result emptyObj parse text = (parse (String.mk s)).getD emptyObj
        ∧ ∃ mid, s = '{' :: (mid ++ ['}']))
    ∧ (searchFence text.data = none → ∀ s, searchBracesGo text.data = some s →
        parse_result emptyObj parse text = (parse (String.mk s)).getD emptyObj
        ∧ ∃ pre post, text.data = pre ++ s ++ post ∧ '{' ∉ pre ∧ '}' ∉ post
            ∧ ∃ mid, s = '{' :: (mid ++ ['}']))
    ∧ (searchFence text.data = none → searchBracesGo text.data = none →
        parse_result emptyObj parse text = emptyObj)
    ∧ (∀ s, searchFence text.data = some s → parse (String.mk s) = none →
        parse_result emptyObj parse text = emptyObj) := by
  refine ⟨?_, ?_, ?_, ?_⟩
  · intro s h
    refine ⟨?_, searchFence_shape _ _ h⟩
    unfold parse_result
    rw [h]
  · intro hn s h
    refine ⟨?_, searchBracesGo_spec _ _ h⟩
    unfold parse_result
    rw [hn, h]
  · intro hn hb
    unfold parse_result
    rw [hn, hb]
  · intro s h hp
    unfold parse_result
    rw [h]
    simp [hp]

def tolerantAnswer : String :=
  "Here is the result:\n```json\n\x7b\"verdict\": \"Same\", \"confidence\": 0.9\x7d\n```"

def parseVerdict : String → Option String :=
  fun s => if s = "\x7b\"verdict\": \"Same\", \"confidence\": 0.9\x7d" then some "parsed" else none

/-- C8 witness: the spec's tolerant-parsing example extracts the fenced JSON
object, and an answer with no JSON-looking substring yields the empty result
without raising. -/
theorem parse_result_extraction_witness :
    parse_result "empty" parseVerdict tolerantAnswer = "parsed"
    ∧ parse_result "empty" parseVerdict "no json here" = "empty" := by
  constructor
  · have h := (parse_result_extraction "empty" parseVerdict tolerantAnswer).1
      "\x7b\"verdict\": \"Same\", \"confidence\": 0.9\x7d".data (by rfl)
    rw [h.1]
    rfl
  · exact (parse_result_extraction "empty" parseVerdict "no json here").2.2.1 rfl rfl

def cexAnswer : String := "x \x7b\"b\": 2\x7d y ```python\n\x7b\"a\": 1\x7d\n``` z"

/-- Stand-in for `json.loads` on the two candidate strings arising from
`cexAnswer`: the fenced object is valid JSON, while the first-brace-to-
last-brace substring (which straddles the fence) is not. -/
def parseDemo : String → Option String :=
  fun s => if s = "\x7b\"a\": 1\x7d" then some s else none

/-- C8 counterexample: the source regex also accepts a `python`-tagged
fence.  On `cexAnswer` the code extracts the object from the python fence,
while the claim's extraction order (json/language-less fence, else first `{`
to last `}`) finds no qualifying fence, falls back to the brace substring
`\x7b"b": 2\x7d y ...python-fence...`, fails to JSON-parse it, and returns
the empty result — a different outcome. -/
theorem parse_result_counterexample :
    parse_result "" parseDemo cexAnswer = "\x7b\"a\": 1\x7d"
    ∧ parse_result_claim "" parseDemo cexAnswer = ""
    ∧ ("\x7b\"a\": 1\x7d" : String) ≠ "" :=
  ⟨rfl, rfl, by decide⟩

end SIB
